import Mathlib

/-!
Shallow embedding of `paper/plot_benchmarks.py` (benchmark aggregation script).

The script has two data-handling stages relevant to the claims:

* `read_data` (Collector): scans the `benchmarks` directory; for each file it
  reads a two-column numeric table (`time`, `mem`; a single-column file leaves
  `mem` as NaN), splits the filename on `_` into exactly three tokens
  (`tool, task, mode = f.name.split("_")`), canonicalises the tool token,
  keeps rows `iloc[1:11]` as the primary sample labelled `zymo_<mode>`, and,
  when the filename ends in `fq`, additionally keeps rows `iloc[12:]`
  labelled `zymo_full`.  All per-file tables are concatenated in enumeration
  order.

* `get_data_summary` (Summarizer): performs `data['mem'] = data['mem'] / 1000`
  (an in-place mutation of the caller's table), sorts by
  `['task', 'file', 'tool']`, and emits one summary row per distinct
  `(task, file, tool)` triple (sorted ascending, as pandas `groupby` sorts
  keys) holding mean and sample standard deviation (ddof = 1) of `time` and
  `mem`.

Embedding conventions: machine floats become `ℚ`; a NaN cell becomes `none`
in an `Option ℚ` (pandas' `mean`/`std` skip NaN, which we model by collecting
only the `some` values); `pandas.DataFrame` becomes `List`; Python's
`ValueError` on tuple unpacking becomes `Except String`.  Because the standard
deviation `sqrt` of a rational is irrational in general, summary rows carry
the sample *variance* (the square of the standard deviation): the standard
deviation is zero exactly when the variance is `some 0` and NaN exactly when
the variance is `none`, so claims about the standard deviation being zero or
undefined are settled on the variance.  The in-place column mutation is
modelled by state passing: `get_data_summary` returns the caller's table as
it stands after the call, together with the summary table.
-/

namespace PlotBenchmarks

/-- Raw numeric record of one benchmark file line: `time` in seconds and the
optional `mem` column in kilobytes (`none` models a NaN / missing column). -/
structure RawRow where
  time : ℚ
  mem : Option ℚ
deriving DecidableEq

/-- Measurement row of the combined table: numeric payload plus the
categorical fields derived from the source filename. -/
structure Row where
  time : ℚ
  mem : Option ℚ
  tool : String
  task : String
  file : String
deriving DecidableEq

/-- Tool-token alias table of `read_data` (the `if`/`elif` chain on `tool`):
known alias tokens map to canonical display names, all others pass through. -/
def canonicalTool (tool : String) : String :=
  if tool = "nanostat8" then "nanostat-t8"
  else if tool = "nanoqf" then "nanoq-fast"
  else if tool = "rbt" then "rust-bio-tools"
  else if tool = "seqtk" then "seqtk-fqchk"
  else tool

/-- Message of the `ValueError` CPython raises when unpacking a list of `n`
elements into the three targets `tool, task, mode`. -/
def unpackError (n : Nat) : String :=
  if n < 3 then "not enough values to unpack (expected 3, got " ++ toString n ++ ")"
  else "too many values to unpack (expected 3)"

/-- Splitting a character list on a separator, Python `str.split(sep)` style
for a one-character separator: every occurrence splits, empty tokens are
preserved, and the empty input yields one empty token. -/
def splitChars (sep : Char) : List Char → List (List Char)
  | [] => [[]]
  | c :: rest =>
      match splitChars sep rest with
      | [] => [[c]]
      | t :: ts => if c = sep then [] :: t :: ts else (c :: t) :: ts

/-- The underscore tokens of a filename, as in Python `f.name.split("_")`. -/
def splitTokens (name : String) : List String :=
  (splitChars '_' name.data).map String.mk

/-- Embeds `tool, task, mode = f.name.split("_")`: succeeds exactly when the
underscore split has three tokens, otherwise fails with the unpack error. -/
def parseFilename (name : String) : Except String (String × String × String) :=
  match splitTokens name with
  | [tool, task, mode] => .ok (tool, task, mode)
  | toks => .error (unpackError toks.length)

/-- The condition `f.name.endswith('fq')` that selects the secondary
(`zymo_full`) sample in `read_data`. -/
def isFullVariant (name : String) : Bool :=
  "fq".data.isSuffixOf name.data

/-- Primary sample of one file: `df.iloc[1:11]` (offsets 1 through 10, the
cold-start row 0 discarded) with the categorical columns attached; the file
label is `zymo_<mode>`. -/
def primaryRows (tool task mode : String) (rows : List RawRow) : List Row :=
  ((rows.drop 1).take 10).map fun r => Row.mk r.time r.mem tool task ("zymo_" ++ mode)

/-- Secondary sample of one file: for a name ending in `fq`, `df.iloc[12:]`
labelled `zymo_full`; otherwise nothing. -/
def secondaryRows (name tool task : String) (rows : List RawRow) : List Row :=
  if isFullVariant name then
    (rows.drop 12).map fun r => Row.mk r.time r.mem tool task "zymo_full"
  else []

/-- Per-file work of `read_data`: parse the filename, canonicalise the tool
token, and emit the primary sample followed by the secondary sample. -/
def readFile (name : String) (rows : List RawRow) : Except String (List Row) :=
  match parseFilename name with
  | .error e => .error e
  | .ok (tool, task, mode) =>
      .ok (primaryRows (canonicalTool tool) task mode rows
            ++ secondaryRows name (canonicalTool tool) task rows)

/-- Embeds `read_data`: the directory listing becomes a list of
(filename, raw rows) pairs in enumeration order; the per-file tables are
concatenated; the first failing file aborts the whole run with its error,
producing no partial table. -/
def read_data : List (String × List RawRow) → Except String (List Row)
  | [] => .ok []
  | (name, rows) :: rest =>
      match readFile name rows, read_data rest with
      | .ok block, .ok acc => .ok (block ++ acc)
      | .error e, _ => .error e
      | _, .error e => .error e

/-- Arithmetic mean as pandas computes it over the non-NaN entries of a
column; an empty list (all entries NaN) means the result is itself NaN. -/
def qmean (l : List ℚ) : Option ℚ :=
  if l.length = 0 then none else some (l.sum / l.length)

/-- Sample variance with the `n - 1` denominator, the square of the standard
deviation pandas' `std` (ddof = 1) computes; `none` models the NaN result on
fewer than two entries. -/
def sampleVariance (l : List ℚ) : Option ℚ :=
  if l.length ≤ 1 then none
  else some ((l.map fun x => (x - l.sum / l.length) ^ 2).sum / ((l.length : ℚ) - 1))

/-- The in-place rescaling `data['mem'] = data['mem'] / 1000` applied to one
row; NaN stays NaN. -/
def rescaleRow (r : Row) : Row :=
  { r with mem := r.mem.map fun m => m / 1000 }

/-- Grouping key of a row, in the order the script groups:
`(task, file, tool)`. -/
def Row.key (r : Row) : String × String × String :=
  (r.task, r.file, r.tool)

/-- Lexicographic order on triples over a linear order, the order in which
pandas `sort_values(['task', 'file', 'tool'])` and nested sorted `groupby`
enumerate distinct key triples. -/
def lexLe {α : Type} [LinearOrder α] (a b : α × α × α) : Prop :=
  a.1 < b.1 ∨ (a.1 = b.1 ∧
    (a.2.1 < b.2.1 ∨ (a.2.1 = b.2.1 ∧ a.2.2 ≤ b.2.2)))

instance {α : Type} [LinearOrder α] : DecidableRel (lexLe (α := α)) := fun a b =>
  inferInstanceAs (Decidable (a.1 < b.1 ∨ (a.1 = b.1 ∧
    (a.2.1 < b.2.1 ∨ (a.2.1 = b.2.1 ∧ a.2.2 ≤ b.2.2)))))

theorem lexLe_total {α : Type} [LinearOrder α] (a b : α × α × α) :
    lexLe a b ∨ lexLe b a := by
  rcases lt_trichotomy a.1 b.1 with h1 | h1 | h1
  · exact Or.inl (Or.inl h1)
  · rcases lt_trichotomy a.2.1 b.2.1 with h2 | h2 | h2
    · exact Or.inl (Or.inr ⟨h1, Or.inl h2⟩)
    · rcases le_total a.2.2 b.2.2 with h3 | h3
      · exact Or.inl (Or.inr ⟨h1, Or.inr ⟨h2, h3⟩⟩)
      · exact Or.inr (Or.inr ⟨h1.symm, Or.inr ⟨h2.symm, h3⟩⟩)
    · exact Or.inr (Or.inr ⟨h1.symm, Or.inl h2⟩)
  · exact Or.inr (Or.inl h1)

theorem lexLe_trans {α : Type} [LinearOrder α] (a b c : α × α × α)
    (hab : lexLe a b) (hbc : lexLe b c) : lexLe a c := by
  rcases hab with h1 | ⟨e1, h1⟩
  · rcases hbc with h2 | ⟨e2, _⟩
    · exact Or.inl (h1.trans h2)
    · exact Or.inl (lt_of_lt_of_eq h1 e2)
  · rcases hbc with h2 | ⟨e2, h2⟩
    · exact Or.inl (lt_of_eq_of_lt e1 h2)
    · refine Or.inr ⟨e1.trans e2, ?_⟩
      rcases h1 with h1 | ⟨f1, h1⟩
      · rcases h2 with h2 | ⟨f2, _⟩
        · exact Or.inl (h1.trans h2)
        · exact Or.inl (lt_of_lt_of_eq h1 f2)
      · rcases h2 with h2 | ⟨f2, h2⟩
        · exact Or.inl (lt_of_eq_of_lt f1 h2)
        · exact Or.inr ⟨f1.trans f2, h1.trans h2⟩

theorem lexLe_antisymm {α : Type} [LinearOrder α] (a b : α × α × α)
    (hab : lexLe a b) (hba : lexLe b a) : a = b := by
  rcases hab with h1 | ⟨e1, h1⟩
  · rcases hba with h2 | ⟨e2, _⟩
    · exact absurd (h1.trans h2) (lt_irrefl _)
    · exact absurd h1 (e2 ▸ lt_irrefl _)
  · rcases hba with h2 | ⟨e2, h2⟩
    · exact absurd h2 (e1 ▸ lt_irrefl _)
    · rcases h1 with h1 | ⟨f1, h1⟩
      · rcases h2 with h2 | ⟨f2, _⟩
        · exact absurd (h1.trans h2) (lt_irrefl _)
        · exact absurd h1 (f2 ▸ lt_irrefl _)
      · rcases h2 with h2 | ⟨f2, h2⟩
        · exact absurd h2 (f1 ▸ lt_irrefl _)
        · exact Prod.ext e1 (Prod.ext f1 (le_antisymm h1 h2))

/-- The character data of a key triple; key comparisons are performed on the
underlying character lists, which carry the same lexicographic order as
Python string comparison. -/
def keyData (k : String × String × String) : List Char × List Char × List Char :=
  (k.1.data, k.2.1.data, k.2.2.data)

/-- Order in which the summary enumerates key triples. -/
def keyLe (a b : String × String × String) : Prop :=
  lexLe (keyData a) (keyData b)

instance : DecidableRel keyLe := fun a b =>
  inferInstanceAs (Decidable (lexLe (keyData a) (keyData b)))

theorem string_data_inj {a b : String} (h : a.data = b.data) : a = b := by
  cases a; cases b; exact congrArg String.mk h

theorem keyData_inj {a b : String × String × String} (h : keyData a = keyData b) :
    a = b := by
  rcases a with ⟨a1, a2, a3⟩
  rcases b with ⟨b1, b2, b3⟩
  simp only [keyData, Prod.mk.injEq] at h
  exact Prod.ext (string_data_inj h.1)
    (Prod.ext (string_data_inj h.2.1) (string_data_inj h.2.2))

instance : IsTotal (String × String × String) keyLe :=
  ⟨fun a b => lexLe_total (keyData a) (keyData b)⟩

instance : IsTrans (String × String × String) keyLe :=
  ⟨fun a b c => lexLe_trans (keyData a) (keyData b) (keyData c)⟩

instance : IsAntisymm (String × String × String) keyLe :=
  ⟨fun _ _ hab hba => keyData_inj (lexLe_antisymm _ _ hab hba)⟩

/-- Distinct `(task, file, tool)` triples of the table, in ascending order:
exactly the keys over which the script's sorted nested `groupby` iterates. -/
def summaryKeys (rows : List Row) : List (String × String × String) :=
  ((rows.map Row.key).dedup).insertionSort keyLe

/-- One summary row: the key triple together with mean and sample variance of
`time` and of the non-NaN `mem` entries of the key's group.  The script
stores the standard deviation, the square root of the variance kept here;
it is zero (resp. NaN) exactly when the variance is `some 0` (resp. `none`). -/
structure SummaryRow where
  task : String
  file : String
  tool : String
  timeMean : Option ℚ
  timeVar : Option ℚ
  memMean : Option ℚ
  memVar : Option ℚ
deriving DecidableEq

/-- Key triple of a summary row. -/
def SummaryRow.key (s : SummaryRow) : String × String × String :=
  (s.task, s.file, s.tool)

/-- Aggregation of one `(task, file, tool)` group. -/
def summarizeGroup (rows : List Row) (k : String × String × String) : SummaryRow :=
  let g := rows.filter fun r => decide (r.key = k)
  let times := g.map Row.time
  let mems := g.filterMap Row.mem
  ⟨k.1, k.2.1, k.2.2, qmean times, sampleVariance times, qmean mems, sampleVariance mems⟩

/-- Embeds `get_data_summary`.  The first component is the caller's table as
it stands after the call: the line `data['mem'] = data['mem'] / 1000` mutates
the caller's `DataFrame` in place, while `sort_values` only rebinds the local
name.  The second component is the summary table, one row per distinct
`(task, file, tool)` triple in ascending key order. -/
def get_data_summary (rows : List Row) : List Row × List SummaryRow :=
  let rescaled := rows.map rescaleRow
  (rescaled, (summaryKeys rescaled).map (summarizeGroup rescaled))

example : parseFilename "nanoq_filt_gz" = .ok ("nanoq", "filt", "gz") := rfl
example : parseFilename "nanoq_fq" =
    .error "not enough values to unpack (expected 3, got 2)" := rfl
example : canonicalTool "rbt" = "rust-bio-tools" := rfl
example : isFullVariant "nanoq_filt_fq" = true := rfl
example : isFullVariant "nanoq_filt_gz" = false := rfl

/-- Eleven single-column raw rows: `time` present, `mem` missing (NaN). -/
def elevenRows : List RawRow :=
  List.replicate 11 ⟨1, none⟩

/-- The three-file benchmarks directory of the end-to-end scenario. -/
def benchFiles : List (String × List RawRow) :=
  [("nanoq_filt_gz", elevenRows), ("nanoq_stat_gz", elevenRows),
    ("filtlong_filt_gz", elevenRows)]

/-- Combined table the Collector builds from `benchFiles`. -/
def benchRows : List Row :=
  (read_data benchFiles).toOption.getD []

/-- C1: with exactly the three files `nanoq_filt_gz`, `nanoq_stat_gz` and
`filtlong_filt_gz`, each holding 11 rows of single-column numeric data, the
combined table built by `read_data` has exactly 30 rows (10 per file, the
first row of each file discarded), the summary produced by
`get_data_summary` has exactly 3 rows, and no combined row has file label
`zymo_full`. -/
theorem endToEnd_scenario :
    read_data benchFiles = .ok benchRows ∧
    benchRows.length = 30 ∧
    (get_data_summary benchRows).2.length = 3 ∧
    ∀ r ∈ benchRows, r.file ≠ "zymo_full" :=
  ⟨rfl, rfl, rfl, by decide⟩

theorem drop_getElem? {α : Type} (l : List α) (n i : Nat) :
    (l.drop n)[i]? = l[n + i]? := by
  induction n generalizing l with
  | zero => simp
  | succ n ih =>
      cases l with
      | nil => simp
      | cons a l =>
          have h : n + 1 + i = (n + i) + 1 := by omega
          rw [List.drop_succ_cons, ih l, h, List.getElem?_cons_succ]

/-- Twelve single-column raw rows used as a concrete witness input. -/
def raws12 : List RawRow :=
  List.replicate 12 ⟨2, none⟩

/-- Thirteen single-column raw rows used as a concrete witness input. -/
def raws13 : List RawRow :=
  List.replicate 13 ⟨3, none⟩

/-- C3: for every input file with at least 12 data rows, the primary sample
(`df.iloc[1:11]`) consists of exactly 10 rows, the row at offset `i` of the
sample being the source row at offset `i + 1`; offsets 1 through 10 are kept
and offset 0 is excluded. -/
theorem primary_sample_exact (tool task mode : String) (rows : List RawRow)
    (h : 12 ≤ rows.length) :
    (primaryRows tool task mode rows).length = 10 ∧
    ∀ i, i < 10 → (primaryRows tool task mode rows)[i]? =
      (rows[i + 1]?).map fun r => Row.mk r.time r.mem tool task ("zymo_" ++ mode) := by
  constructor
  · simp only [primaryRows, List.length_map, List.length_take, List.length_drop]
    omega
  · intro i hi
    simp only [primaryRows, List.getElem?_map, List.getElem?_take_of_lt hi,
      drop_getElem?]
    rw [Nat.add_comm 1 i]

theorem primary_sample_exact_witness :
    (primaryRows "nanoq" "filt" "gz" raws12).length = 10 ∧
    (primaryRows "nanoq" "filt" "gz" raws12)[0]? =
      (raws12[1]?).map (fun r => Row.mk r.time r.mem "nanoq" "filt" ("zymo_" ++ "gz")) :=
  ⟨(primary_sample_exact "nanoq" "filt" "gz" raws12 (by decide)).1,
    (primary_sample_exact "nanoq" "filt" "gz" raws12 (by decide)).2 0 (by decide)⟩

/-- C4: for a file whose name indicates the full dataset variant (it ends in
`fq`, the code's `f.name.endswith('fq')`) with more than 12 rows, the
secondary sample is exactly the rows from offset 12 onward, every one tagged
with the distinct file label `zymo_full`, and it is nonempty; for a
non-full-variant file no secondary sample is produced. -/
theorem secondary_sample (name tool task : String) (rows : List RawRow) :
    (isFullVariant name = true → 12 < rows.length →
      secondaryRows name tool task rows =
        (rows.drop 12).map (fun r => Row.mk r.time r.mem tool task "zymo_full") ∧
      secondaryRows name tool task rows ≠ [] ∧
      ∀ r ∈ secondaryRows name tool task rows, r.file = "zymo_full") ∧
    (isFullVariant name = false → secondaryRows name tool task rows = []) := by
  constructor
  · intro hfull hlen
    refine ⟨by simp [secondaryRows, hfull], ?_, ?_⟩
    · simp only [secondaryRows, hfull, if_true]
      intro hnil
      rw [List.map_eq_nil_iff, List.drop_eq_nil_iff] at hnil
      omega
    · intro r hr
      simp only [secondaryRows, hfull, if_true, List.mem_map] at hr
      obtain ⟨a, _, rfl⟩ := hr
      rfl
  · intro hfull
    simp [secondaryRows, hfull]

theorem secondary_sample_witness :
    secondaryRows "nanoq_filt_fq" "nanoq" "filt" raws13 =
      (raws13.drop 12).map (fun r => Row.mk r.time r.mem "nanoq" "filt" "zymo_full") ∧
    secondaryRows "nanoq_filt_fq" "nanoq" "filt" raws13 ≠ [] ∧
    secondaryRows "nanoq_filt_gz" "nanoq" "filt" raws13 = [] :=
  ⟨((secondary_sample "nanoq_filt_fq" "nanoq" "filt" raws13).1 (by decide) (by decide)).1,
    ((secondary_sample "nanoq_filt_fq" "nanoq" "filt" raws13).1 (by decide) (by decide)).2.1,
    (secondary_sample "nanoq_filt_gz" "nanoq" "filt" raws13).2 (by decide)⟩

/-- C5: for a group whose time values are all the identical value `v`, the
mean is `v`; the sample variance (ddof = 1, the square of the standard
deviation the script stores) is `some 0` for two or more rows — so the
standard deviation is 0 — and `none` (NaN) for exactly one row — so the
standard deviation is NaN, not zero. -/
theorem identical_values_stats (v : ℚ) (l : List ℚ) (hall : ∀ x ∈ l, x = v) :
    (l.length ≠ 0 → qmean l = some v) ∧
    (2 ≤ l.length → sampleVariance l = some 0) ∧
    (l.length = 1 → sampleVariance l = none) := by
  have hrep : l = List.replicate l.length v := List.eq_replicate_of_mem hall
  have hsum : l.sum = (l.length : ℚ) * v := by
    conv_lhs => rw [hrep]
    rw [List.sum_replicate, nsmul_eq_mul]
  refine ⟨?_, ?_, ?_⟩
  · intro hn
    have hcast : (l.length : ℚ) ≠ 0 := Nat.cast_ne_zero.mpr hn
    simp only [qmean, hn, if_false, hsum]
    rw [mul_div_cancel_left₀ v hcast]
  · intro h2
    have hn : l.length ≠ 0 := by omega
    have hcast : (l.length : ℚ) ≠ 0 := Nat.cast_ne_zero.mpr hn
    have hmean : l.sum / (l.length : ℚ) = v := by
      rw [hsum, mul_div_cancel_left₀ v hcast]
    have hmap : l.map (fun x => (x - l.sum / l.length) ^ 2) =
        List.replicate l.length 0 := by
      refine List.eq_replicate_iff.mpr ⟨by simp, ?_⟩
      intro y hy
      obtain ⟨x, hx, rfl⟩ := List.mem_map.mp hy
      rw [hall x hx, hmean, sub_self]
      ring
    have hcond : ¬ l.length ≤ 1 := by omega
    simp only [sampleVariance, hcond, if_false, hmap, List.sum_replicate,
      smul_zero, zero_div]
  · intro h1
    simp [sampleVariance, h1]

theorem identical_values_stats_witness :
    qmean [(5 : ℚ), 5] = some 5 ∧ sampleVariance [(5 : ℚ), 5] = some 0 ∧
    sampleVariance [(7 : ℚ)] = none :=
  ⟨(identical_values_stats 5 [5, 5] (by decide)).1 (by decide),
    (identical_values_stats 5 [5, 5] (by decide)).2.1 (by decide),
    (identical_values_stats 7 [7] (by decide)).2.2 (by decide)⟩

/-- C6: the four known alias tokens map to their canonical tool names, every
other token passes through `canonicalTool` unchanged, and every row produced
by `readFile` carries `canonicalTool` of the filename's first underscore
token in its tool column. -/
theorem tool_alias_mapping :
    (canonicalTool "nanostat8" = "nanostat-t8" ∧ canonicalTool "nanoqf" = "nanoq-fast" ∧
      canonicalTool "rbt" = "rust-bio-tools" ∧ canonicalTool "seqtk" = "seqtk-fqchk") ∧
    (∀ t, t ≠ "nanostat8" → t ≠ "nanoqf" → t ≠ "rbt" → t ≠ "seqtk" →
      canonicalTool t = t) ∧
    (∀ name tool task mode rows out,
      parseFilename name = .ok (tool, task, mode) →
      readFile name rows = .ok out →
      ∀ r ∈ out, r.tool = canonicalTool tool) := by
  refine ⟨⟨rfl, rfl, rfl, rfl⟩, ?_, ?_⟩
  · intro t h1 h2 h3 h4
    simp [canonicalTool, h1, h2, h3, h4]
  · intro name tool task mode rows out hparse hread r hr
    rw [readFile, hparse] at hread
    rw [Except.ok.injEq] at hread
    subst hread
    rcases List.mem_append.mp hr with hp | hs
    · obtain ⟨a, _, rfl⟩ := List.mem_map.mp hp
      rfl
    · rw [secondaryRows] at hs
      by_cases hfull : isFullVariant name
      · rw [if_pos hfull] at hs
        obtain ⟨a, _, rfl⟩ := List.mem_map.mp hs
        rfl
      · rw [if_neg hfull] at hs
        exact absurd hs (List.not_mem_nil r)

theorem tool_alias_mapping_witness :
    canonicalTool "nanostat8" = "nanostat-t8" ∧ canonicalTool "nanoq" = "nanoq" :=
  ⟨tool_alias_mapping.1.1,
    tool_alias_mapping.2.1 "nanoq" (by decide) (by decide) (by decide) (by decide)⟩

theorem parseFilename_ok_iff (name : String) :
    (splitTokens name).length = 3 ↔ (parseFilename name).isOk = true := by
  rcases h : splitTokens name with _ | ⟨a, _ | ⟨b, _ | ⟨c, _ | ⟨d, tl⟩⟩⟩⟩ <;>
    simp [parseFilename, h, Except.isOk, Except.toBool]

theorem parseFilename_err (name : String) (h : (splitTokens name).length ≠ 3) :
    parseFilename name = .error (unpackError (splitTokens name).length) := by
  rcases hl : splitTokens name with _ | ⟨a, _ | ⟨b, _ | ⟨c, _ | ⟨d, tl⟩⟩⟩⟩ <;>
    simp_all [parseFilename, hl]

theorem read_data_err :
    ∀ files : List (String × List RawRow),
    (∃ p ∈ files, (splitTokens p.1).length ≠ 3) →
    ∃ e, read_data files = .error e := by
  intro files
  induction files with
  | nil =>
      rintro ⟨p, hp, _⟩
      exact absurd hp (List.not_mem_nil p)
  | cons f rest ih =>
      rintro ⟨p, hp, hbad⟩
      rcases f with ⟨name, raws⟩
      rcases List.mem_cons.mp hp with rfl | hmem
      · refine ⟨unpackError (splitTokens name).length, ?_⟩
        have herr := parseFilename_err name hbad
        simp only [read_data, readFile, herr]
      · obtain ⟨e, he⟩ := ih ⟨p, hmem, hbad⟩
        cases hres : readFile name raws with
        | error e2 => exact ⟨e2, by simp only [read_data, hres]⟩
        | ok block => exact ⟨e, by simp only [read_data, hres, he]⟩

/-- Claim C2 as stated is false at a concrete input: the four-token filename
`nanoq_filt_gz_extra` makes the run fail, but the unpacking error does not
name the offending file (its characters are not a substring of the message);
likewise a two-token filename fails even though the claim allows a two-token
variant. -/
theorem filename_parse_counterexample :
    parseFilename "nanoq_filt_gz_extra" =
      .error "too many values to unpack (expected 3)" ∧
    ¬ ("nanoq_filt_gz_extra".data <:+: "too many values to unpack (expected 3)".data) ∧
    parseFilename "nanoq_fq" =
      .error "not enough values to unpack (expected 3, got 2)" :=
  ⟨rfl, by decide, rfl⟩

/-- C2 amended: splitting a filename on underscore must yield exactly three
tokens (never two); a filename splitting into any other number of tokens
fails with the tuple-unpacking error — which reports the token count, not
the offending filename — and a run containing such a file produces an error
and no partial combined table. -/
theorem filename_parse_amended :
    (∀ name, (splitTokens name).length = 3 ↔ (parseFilename name).isOk = true) ∧
    (∀ name, (splitTokens name).length ≠ 3 →
      parseFilename name = .error (unpackError (splitTokens name).length)) ∧
    (∀ files : List (String × List RawRow),
      (∃ p ∈ files, (splitTokens p.1).length ≠ 3) →
      ∃ e, read_data files = .error e) :=
  ⟨parseFilename_ok_iff, parseFilename_err, read_data_err⟩

theorem filename_parse_amended_witness :
    (parseFilename "nanoq_filt_gz").isOk = true ∧
    parseFilename "nanoq_filt_gz_x" =
      .error (unpackError (splitTokens "nanoq_filt_gz_x").length) ∧
    ∃ e, read_data [("nanoq_fq", raws13)] = .error e :=
  ⟨(filename_parse_amended.1 "nanoq_filt_gz").mp (by decide),
    filename_parse_amended.2.1 "nanoq_filt_gz_x" (by decide),
    filename_parse_amended.2.2 [("nanoq_fq", raws13)]
      ⟨("nanoq_fq", raws13), List.mem_singleton.mpr rfl, by decide⟩⟩

theorem key_rescale (r : Row) : (rescaleRow r).key = r.key := rfl

theorem summarizeGroup_key (rows : List Row) (k : String × String × String) :
    (summarizeGroup rows k).key = k := by
  rcases k with ⟨a, b, c⟩
  rfl

/-- Number of summary rows carrying the key triple `k`. -/
def keyOccurrences (k : String × String × String) (summary : List SummaryRow) : Nat :=
  (summary.filter fun s => decide (s.key = k)).length

theorem length_filter_eq_of_nodup {α : Type} [DecidableEq α] {l : List α}
    (hnd : l.Nodup) (k : α) :
    (l.filter fun x => decide (x = k)).length = if k ∈ l then 1 else 0 := by
  induction l with
  | nil => simp
  | cons a t ih =>
      rw [List.nodup_cons] at hnd
      rw [List.filter_cons]
      by_cases hak : a = k
      · subst hak
        have hnt : a ∉ t := hnd.1
        simp [ih hnd.2, hnt]
      · simp [hak, ih hnd.2, Ne.symm hak]

/-- C7: the summary of `get_data_summary` is exhaustive and non-redundant:
a `(task, file, tool)` triple occurs in exactly one summary row when it is
the key of some input row, and in no summary row otherwise. -/
theorem summary_exhaustive (rows : List Row) (k : String × String × String) :
    keyOccurrences k (get_data_summary rows).2 =
      if k ∈ rows.map Row.key then 1 else 0 := by
  have hkeymap : (rows.map rescaleRow).map Row.key = rows.map Row.key := by
    rw [List.map_map]
    exact List.map_congr_left fun r _ => key_rescale r
  have hpred : ((fun s => decide (s.key = k)) ∘ summarizeGroup (rows.map rescaleRow)) =
      fun x => decide (x = k) := by
    funext x
    simp [Function.comp, summarizeGroup_key]
  have hfilter : keyOccurrences k (get_data_summary rows).2 =
      ((summaryKeys (rows.map rescaleRow)).filter fun x => decide (x = k)).length := by
    simp only [keyOccurrences, get_data_summary]
    rw [List.filter_map, hpred, List.length_map]
  rw [hfilter]
  have hperm : List.Perm
      ((summaryKeys (rows.map rescaleRow)).filter fun x => decide (x = k))
      ((((rows.map rescaleRow).map Row.key).dedup).filter fun x => decide (x = k)) :=
    (List.perm_insertionSort keyLe _).filter _
  rw [hperm.length_eq]
  rw [length_filter_eq_of_nodup (List.nodup_dedup _) k]
  simp only [List.mem_dedup, hkeymap]

/-- C8: the memory rescaling step of `get_data_summary` divides every row's
`mem` value by exactly 1000; in particular an input value of 2,000,000
kilobytes becomes 2,000 megabytes. -/
theorem mem_rescale (rows : List Row) :
    ((get_data_summary rows).1).map Row.mem =
      rows.map (fun r => r.mem.map fun m => m / 1000) ∧
    ((get_data_summary [Row.mk 1 (some 2000000) "nanoq" "filt" "zymo_gz"]).1).map
      Row.mem = [some 2000] := by
  constructor
  · simp only [get_data_summary]
    rw [List.map_map]
    rfl
  · simp only [get_data_summary, List.map_cons, List.map_nil, rescaleRow,
      Option.map_some']
    norm_num

/-- The concrete row showing that `get_data_summary` mutates its caller's
table. -/
def rowMem1000 : Row :=
  Row.mk 1 (some 1000) "nanoq" "filt" "zymo_gz"

/-- Claim C9 as stated is false at a concrete input: after calling
`get_data_summary` on a table holding one row with `mem = 1000`, the
caller's table is not the one it passed in — the line
`data['mem'] = data['mem'] / 1000` rescales the caller's `mem` column in
place. -/
theorem summary_mutates_caller :
    (get_data_summary [rowMem1000]).1 ≠ [rowMem1000] := by
  intro h
  simp only [get_data_summary, List.map_cons, List.map_nil, rescaleRow,
    rowMem1000, Option.map_some'] at h
  rw [List.cons.injEq, Row.mk.injEq] at h
  have hm : ((1000 : ℚ) / 1000) = 1000 := Option.some.injEq _ _ ▸ h.1.2.1
  norm_num at hm

/-- C9 amended: `get_data_summary` mutates the caller's table in exactly one
way: every row's `mem` value is divided by 1000; `time` and the categorical
fields of every row, and the row order, are unchanged. -/
theorem summary_mutation_exact (rows : List Row) :
    (get_data_summary rows).1 = rows.map rescaleRow ∧
    ∀ r : Row, (rescaleRow r).time = r.time ∧ (rescaleRow r).tool = r.tool ∧
      (rescaleRow r).task = r.task ∧ (rescaleRow r).file = r.file ∧
      (rescaleRow r).mem = r.mem.map fun m => m / 1000 :=
  ⟨rfl, fun _ => ⟨rfl, rfl, rfl, rfl, rfl⟩⟩

theorem qmean_perm {l1 l2 : List ℚ} (h : l1.Perm l2) : qmean l1 = qmean l2 := by
  unfold qmean
  rw [h.length_eq, h.sum_eq]

theorem sampleVariance_perm {l1 l2 : List ℚ} (h : l1.Perm l2) :
    sampleVariance l1 = sampleVariance l2 := by
  unfold sampleVariance
  rw [h.length_eq, h.sum_eq,
    (h.map fun x => (x - l2.sum / l2.length) ^ 2).sum_eq]

theorem summarizeGroup_perm {rows1 rows2 : List Row} (h : rows1.Perm rows2)
    (k : String × String × String) :
    summarizeGroup rows1 k = summarizeGroup rows2 k := by
  have hg := h.filter fun r => decide (r.key = k)
  simp only [summarizeGroup]
  rw [qmean_perm (hg.map Row.time), sampleVariance_perm (hg.map Row.time),
    qmean_perm (hg.filterMap Row.mem), sampleVariance_perm (hg.filterMap Row.mem)]

theorem summaryKeys_perm {rows1 rows2 : List Row} (h : rows1.Perm rows2) :
    summaryKeys rows1 = summaryKeys rows2 := by
  have hd : ((rows1.map Row.key).dedup).Perm ((rows2.map Row.key).dedup) :=
    (h.map Row.key).dedup
  exact List.eq_of_perm_of_sorted
    ((List.perm_insertionSort keyLe _).trans
      (hd.trans (List.perm_insertionSort keyLe _).symm))
    (List.sorted_insertionSort keyLe _)
    (List.sorted_insertionSort keyLe _)

theorem get_data_summary_perm {rows1 rows2 : List Row} (h : rows1.Perm rows2) :
    (get_data_summary rows1).2 = (get_data_summary rows2).2 := by
  have hr : (rows1.map rescaleRow).Perm (rows2.map rescaleRow) := h.map rescaleRow
  simp only [get_data_summary]
  rw [summaryKeys_perm hr]
  exact List.map_congr_left fun k _ => summarizeGroup_perm hr k

theorem read_data_cons_ok {name : String} {raws : List RawRow}
    {rest : List (String × List RawRow)} {rows : List Row} :
    read_data ((name, raws) :: rest) = .ok rows ↔
    ∃ block acc, readFile name raws = .ok block ∧ read_data rest = .ok acc ∧
      rows = block ++ acc := by
  constructor
  · intro h
    cases hf : readFile name raws with
    | error e =>
        rw [read_data.eq_def] at h
        simp only [hf] at h
        exact Except.noConfusion h
    | ok block =>
        cases hr : read_data rest with
        | error e =>
            rw [read_data.eq_def] at h
            simp only [hf, hr] at h
            exact Except.noConfusion h
        | ok acc =>
            rw [read_data.eq_def] at h
            simp only [hf, hr, Except.ok.injEq] at h
            exact ⟨block, acc, rfl, rfl, h.symm⟩
  · rintro ⟨block, acc, hf, hr, rfl⟩
    rw [read_data.eq_def]
    simp only [hf, hr]

theorem read_data_perm {files1 files2 : List (String × List RawRow)}
    (hperm : files1.Perm files2) :
    ∀ {rows1 : List Row}, read_data files1 = .ok rows1 →
    ∃ rows2, read_data files2 = .ok rows2 ∧ rows1.Perm rows2 := by
  induction hperm with
  | nil =>
      intro rows1 h1
      exact ⟨rows1, h1, List.Perm.refl _⟩
  | cons f htail ih =>
      intro rows1 h1
      rcases f with ⟨name, raws⟩
      obtain ⟨block, acc, hf, hr, rfl⟩ := read_data_cons_ok.mp h1
      obtain ⟨acc2, h2, hpacc⟩ := ih hr
      exact ⟨block ++ acc2, read_data_cons_ok.mpr ⟨block, acc2, hf, h2, rfl⟩,
        hpacc.append_left block⟩
  | swap x y tail =>
      intro rows1 h1
      rcases x with ⟨nx, rx⟩
      rcases y with ⟨ny, ry⟩
      obtain ⟨b1, acc1, hf1, hr1, rfl⟩ := read_data_cons_ok.mp h1
      obtain ⟨b2, acc2, hf2, hr2, rfl⟩ := read_data_cons_ok.mp hr1
      refine ⟨b2 ++ (b1 ++ acc2),
        read_data_cons_ok.mpr ⟨b2, b1 ++ acc2, hf2,
          read_data_cons_ok.mpr ⟨b1, acc2, hf1, hr2, rfl⟩, rfl⟩, ?_⟩
      rw [← List.append_assoc, ← List.append_assoc]
      exact List.perm_append_comm.append_right acc2
  | trans h12 h23 ih12 ih23 =>
      intro rows1 h1
      obtain ⟨rowsm, hm, hp1⟩ := ih12 h1
      obtain ⟨rows3, h3, hp2⟩ := ih23 hm
      exact ⟨rows3, h3, hp1.trans hp2⟩

/-- C10: the summary table is independent of the order in which the Collector
enumerates the input files: two runs of `read_data` over the same set of
files in any two enumeration orders yield combined tables whose
`get_data_summary` summaries are identical, row for row — keys are emitted
in sorted `(task, file, tool)` order and mean and variance are
permutation-invariant within each group. -/
theorem summary_enumeration_order_independent
    {files1 files2 : List (String × List RawRow)} (hperm : files1.Perm files2)
    {rows1 rows2 : List Row}
    (h1 : read_data files1 = .ok rows1) (h2 : read_data files2 = .ok rows2) :
    (get_data_summary rows1).2 = (get_data_summary rows2).2 := by
  obtain ⟨rows2x, h2x, hp⟩ := read_data_perm hperm h1
  rw [h2x, Except.ok.injEq] at h2
  subst h2
  exact get_data_summary_perm hp

/-- The scenario directory of C1 listed in reverse enumeration order. -/
def benchFilesRev : List (String × List RawRow) :=
  [("filtlong_filt_gz", elevenRows), ("nanoq_stat_gz", elevenRows),
    ("nanoq_filt_gz", elevenRows)]

/-- Combined table the Collector builds from the reversed listing. -/
def benchRowsRev : List Row :=
  (read_data benchFilesRev).toOption.getD []

theorem summary_enumeration_order_independent_witness :
    (get_data_summary benchRows).2 = (get_data_summary benchRowsRev).2 :=
  @summary_enumeration_order_independent benchFiles benchFilesRev (by decide)
    benchRows benchRowsRev rfl rfl

end PlotBenchmarks
